import Mathlib

/-!
Verification of the big_rl minigrid training components: the reward-noise
filter, the multitask weighting strategies, the PPO loss generators of
`big_rl/minigrid/script.py` (stateful-recurrent variant) and
`big_rl/minigrid/train_mtft.py` (flattened variant), the masked hidden-state
reset, and the reward bookkeeping of the rollout loop.

Real-valued tensors are modelled as `List ℝ` (or `List ℚ` where the claims
only need exact arithmetic), vectorized boolean masks as `List Bool`, and the
opaque collaborators (the policy model, the environment, `np.random.shuffle`,
and the frankenstein policy-gradient loss) as explicit function parameters.
Python generators are modelled as total functions returning the list of
yielded records.
-/

/- ------------------------------------------------------------------ -/
/- RewardNoise, mode `zero`, trigger `cycle_steps`                     -/
/- ------------------------------------------------------------------ -/

/-- Modelled from the spec: the class `RewardNoise` (module
`big_rl.minigrid.envs`) is not included in the sources, only its tests are.
This models mode `zero` with trigger `cycle_steps` following section 4.1:
`apply` advances the step counter once per call; the reward passes through
when `((step_count - 1) mod (onLen + offLen)) < onLen`, else it is zeroed;
the parameter `(0, 0)` fails with a configuration error on first use. -/
structure RewardNoiseZeroCycleSteps where
  on_length : Nat
  off_length : Nat
  step_count : Nat
deriving DecidableEq

/-- Modelled from the spec: a freshly constructed noise filter, before any
`apply` call, has a zero step counter. -/
def RewardNoiseZeroCycleSteps.make (onLen offLen : Nat) : RewardNoiseZeroCycleSteps :=
  ⟨onLen, offLen, 0⟩

/-- Modelled from the spec: one `apply` call.  The step counter advances as a
side effect regardless of the outcome; a `(0, 0)` cycle parameter raises a
configuration error instead of dividing by zero. -/
def RewardNoiseZeroCycleSteps.apply (s : RewardNoiseZeroCycleSteps) (reward : ℚ) :
    Except String (ℚ × RewardNoiseZeroCycleSteps) :=
  let s2 : RewardNoiseZeroCycleSteps := ⟨s.on_length, s.off_length, s.step_count + 1⟩
  if s.on_length + s.off_length = 0 then
    Except.error "invalid cycle parameters"
  else if (s2.step_count - 1) % (s.on_length + s.off_length) < s.on_length then
    Except.ok (reward, s2)
  else
    Except.ok ((0 : ℚ), s2)

/-- Modelled from the spec: a sequence of `apply` calls, collecting the
transformed rewards in order.  The first configuration error aborts. -/
def RewardNoiseZeroCycleSteps.applyList (s : RewardNoiseZeroCycleSteps) :
    List ℚ → Except String (List ℚ × RewardNoiseZeroCycleSteps)
  | [] => Except.ok ([], s)
  | r :: rs =>
    match s.apply r with
    | Except.error e => Except.error e
    | Except.ok (out, s2) =>
      match s2.applyList rs with
      | Except.error e => Except.error e
      | Except.ok (outs, s3) => Except.ok (out :: outs, s3)

/-- Closed form of the outputs of `applyList` starting at step counter `m`:
the output for the call at offset `i` passes the reward through exactly when
`(m + i) % (on + off) < on`. -/
def cycleOut (onLen offLen m : Nat) : List ℚ → List ℚ
  | [] => []
  | r :: rs => (if m % (onLen + offLen) < onLen then r else 0) :: cycleOut onLen offLen (m + 1) rs

/- ------------------------------------------------------------------ -/
/- Masked hidden-state reset (script.py lines 56-61 and 400-404)       -/
/- ------------------------------------------------------------------ -/

/-- `torch.where(done.unsqueeze(1), h0, h)` on one recurrent layer: slot `i`
takes the row of `h0` when `done` holds at `i`, and the row of `h` otherwise.
Rows are abstract (`α`). -/
def whereRows {α : Type} : List Bool → List α → List α → List α
  | d :: ds, a :: va, b :: vb => (if d then a else b) :: whereRows ds va vb
  | _, _, _ => []

/-- The masked hidden-state reset of `script.py`: the `torch.where` applied
layerwise over the tuple of recurrent layers (rollout loop lines 400-404, and
the replay inside `compute_ppo_losses`, lines 56-61). -/
def resetHidden {α : Type} (done : List Bool) (h0 h : List (List α)) : List (List α) :=
  List.zipWith (fun a b => whereRows done a b) h0 h

/- ------------------------------------------------------------------ -/
/- MultitaskStaticWeight (script.py lines 174-189)                     -/
/- ------------------------------------------------------------------ -/

/-- `MultitaskStaticWeight` of `script.py`: holds the normalized weight
vector. -/
structure MultitaskStaticWeight where
  weight : List ℚ
deriving DecidableEq

/-- The constructor of `MultitaskStaticWeight`: the input vector divided by
its sum (lines 178-182; the non-negativity assert is a precondition,
expressed as a hypothesis of the theorems). -/
def MultitaskStaticWeight.make (w : List ℚ) : MultitaskStaticWeight :=
  ⟨w.map (fun x => x / w.sum)⟩

/-- `MultitaskStaticWeight.step` (lines 184-185): a no-op. -/
def MultitaskStaticWeight.step (m : MultitaskStaticWeight)
    (scores : List (List ℚ)) : MultitaskStaticWeight :=
  m

/-- Any sequence of `step` calls. -/
def MultitaskStaticWeight.stepMany (m : MultitaskStaticWeight)
    (scoreSeq : List (List (List ℚ))) : MultitaskStaticWeight :=
  scoreSeq.foldl MultitaskStaticWeight.step m

/- ------------------------------------------------------------------ -/
/- Rollout reward bookkeeping (script.py lines 346-411)                -/
/- ------------------------------------------------------------------ -/

/-- `np.clip(x, -c, c)`. -/
def clipQ (c x : ℚ) : ℚ := min (max x (-c)) c

/-- The reward stored into the trajectory history: scaled by `reward_scale`,
then optionally clipped to `[-reward_clip, reward_clip]`
(script.py lines 379-381). -/
def scaleClip (reward_scale : ℚ) (reward_clip : Option ℚ) (reward : List ℚ) : List ℚ :=
  let scaled := reward.map (fun r => r * reward_scale)
  match reward_clip with
  | none => scaled
  | some c => scaled.map (clipQ c)

/-- The per-slot reward accumulators of `train_single_env` and the data they
feed: `episode_reward`/`episode_true_reward` (raw sums), the
`episode_rewards` list handed to multitask weighting, and the rewards
appended to the trajectory history. -/
structure RolloutAcc where
  episode_reward : List ℚ
  episode_true_reward : List ℚ
  episode_rewards : List ℚ
  history_rewards : List (List ℚ)
deriving DecidableEq

/-- One iteration of the rollout loop of `train_single_env`
(script.py lines 351-411), restricted to reward bookkeeping.  One input is
the per-slot environment reward, the per-slot raw reward from `info`, and the
per-slot done mask.  The accumulators add the reward *before* scaling and
clipping; the history receives the scaled-then-clipped reward; on `done`,
the finished accumulator values are collected in slot order and reset. -/
def rolloutStep (reward_scale : ℚ) (reward_clip : Option ℚ) (st : RolloutAcc)
    (inp : List ℚ × List ℚ × List Bool) : RolloutAcc :=
  let reward := inp.1
  let true_reward := inp.2.1
  let done := inp.2.2
  let er := List.zipWith (fun a b => a + b) st.episode_reward reward
  let etr := List.zipWith (fun a b => a + b) st.episode_true_reward true_reward
  let finished := (List.zip er done).filterMap (fun p => if p.2 then some p.1 else none)
  { episode_reward := List.zipWith (fun r d => if d then 0 else r) er done,
    episode_true_reward := List.zipWith (fun r d => if d then 0 else r) etr done,
    episode_rewards := st.episode_rewards ++ finished,
    history_rewards := st.history_rewards ++ [scaleClip reward_scale reward_clip reward] }

/-- The rollout loop folded over a trace of environment outcomes. -/
def rolloutRun (reward_scale : ℚ) (reward_clip : Option ℚ)
    (steps : List (List ℚ × List ℚ × List Bool)) (init : RolloutAcc) : RolloutAcc :=
  steps.foldl (rolloutStep reward_scale reward_clip) init

/- ------------------------------------------------------------------ -/
/- enum_minibatches (train_mtft.py lines 27-40), replace=False         -/
/- ------------------------------------------------------------------ -/

/-- The `i`-th minibatch yielded by `enum_minibatches(batch_size,
minibatch_size, num_minibatches, replace=False)`.  `np.random.shuffle` is an
external collaborator: `perm p` is the content of the index array after its
`(p+1)`-th shuffle (the shuffle fires exactly when `i % n = 0`, so pass `p`
covers `i ∈ [p*n, (p+1)*n)` with `n = batch_size / minibatch_size`). -/
def enum_minibatches (perm : Nat → List Nat) (batch_size minibatch_size i : Nat) : List Nat :=
  let n := batch_size / minibatch_size
  let j := i % n
  ((perm (i / n)).drop (j * minibatch_size)).take minibatch_size

/- ------------------------------------------------------------------ -/
/- Real-valued helpers: tensor mean, std, advantage normalization      -/
/- ------------------------------------------------------------------ -/

/-- `tensor.mean()` over all elements. -/
noncomputable def listMean (xs : List ℝ) : ℝ := xs.sum / xs.length

/-- `tensor.std()`: the square root of the Bessel-corrected (unbiased)
variance, as torch computes by default. -/
noncomputable def listStd (xs : List ℝ) : ℝ :=
  Real.sqrt ((xs.map (fun x => (x - listMean xs) ^ 2)).sum / ((xs.length : ℝ) - 1))

/-- `(a - a.mean()) / (a.std() + 1e-8)`: the advantage normalization used by
both PPO variants (script.py line 83, train_mtft.py line 135). -/
noncomputable def normalizeAdv (xs : List ℝ) : List ℝ :=
  xs.map (fun x => (x - listMean xs) / (listStd xs + 1 / 10 ^ 8))

/-- `xs[inds]`: numpy fancy indexing of a flat tensor. -/
def gather {α : Type} (dflt : α) (xs : List α) (inds : List Nat) : List α :=
  inds.map (fun i => xs.getD i dflt)

/- ------------------------------------------------------------------ -/
/- MultitaskDynamicWeight (script.py lines 153-171)                    -/
/- ------------------------------------------------------------------ -/

/-- `MultitaskDynamicWeight` of `script.py`: per-task known maximum and
random-policy scores, temperature, EMA decay, and the current EMA score. -/
structure MultitaskDynamicWeight where
  max_score : List ℝ
  random_score : List ℝ
  temperature : ℝ
  ema_weight : ℝ
  score : List ℝ

/-- The constructor (lines 154-160): the EMA score starts at the
random-policy score. -/
noncomputable def MultitaskDynamicWeight.make (max_score random_score : List ℝ)
    (temperature ema_weight : ℝ) : MultitaskDynamicWeight :=
  ⟨max_score, random_score, temperature, ema_weight, random_score⟩

/-- The inner loop of `MultitaskDynamicWeight.step` for one task: each new
score folds into the EMA as `score * ema + s * (1 - ema)`. -/
noncomputable def emaFold (ema x0 : ℝ) (ss : List ℝ) : ℝ :=
  ss.foldl (fun x s => x * ema + s * (1 - ema)) x0

/-- `MultitaskDynamicWeight.step` (lines 162-165): folds each task's new
episode returns into that task's EMA score. -/
noncomputable def MultitaskDynamicWeight.step (m : MultitaskDynamicWeight)
    (scores : List (List ℝ)) : MultitaskDynamicWeight :=
  { m with
    score := (List.range m.score.length).map
      (fun i => emaFold m.ema_weight (m.score.getD i 0) (scores.getD i [])) }

/-- The `weight` property (lines 167-171):
`relative_score = -(score - random_score) / (max_score - random_score)`, then
`x = exp(relative_score / temperature)` and the result is `x / x.sum()`. -/
noncomputable def MultitaskDynamicWeight.weight (m : MultitaskDynamicWeight) : List ℝ :=
  let relative_score :=
    List.zipWith (fun s rm => -(s - rm.1) / (rm.2 - rm.1))
      m.score (List.zip m.random_score m.max_score)
  let x := relative_score.map (fun v => Real.exp (v / m.temperature))
  x.map (fun v => v / x.sum)

/-- The spec's reference definition of softmax (section 4.2), to compare the
code's `weight` against: exponentiate each entry and divide by the sum. -/
noncomputable def softmax (v : List ℝ) : List ℝ :=
  let x := v.map Real.exp
  x.map (fun e => e / x.sum)

/- ------------------------------------------------------------------ -/
/- PPO loss generators                                                 -/
/- ------------------------------------------------------------------ -/

/-- One yielded loss record of `compute_ppo_losses` (both variants).
`adv_used` additionally records the advantage values passed to the
policy-gradient loss in that iteration, so that the placement of the
normalization is observable. -/
structure LossRecord where
  loss : ℝ
  loss_pi : ℝ
  loss_vf : ℝ
  loss_entropy : ℝ
  approx_kl : ℝ
  adv_used : List ℝ

instance : Inhabited LossRecord := ⟨⟨0, 0, 0, 0, 0, []⟩⟩

/-- `torch.clamp(x, lo, hi)`. -/
noncomputable def clampR (lo hi x : ℝ) : ℝ := min (max x lo) hi

/-- The PPO value loss (script.py lines 121-133, train_mtft.py lines
146-158): clipped against the frozen old values when `clip_vf_loss` is set,
plain mean squared error otherwise. -/
noncomputable def vLoss (clip_vf_loss : Option ℝ) (values valuesOld returns : List ℝ) : ℝ :=
  match clip_vf_loss with
  | some c =>
      let v_loss_unclipped := List.zipWith (fun v r => (v - r) ^ 2) values returns
      let v_clipped := List.zipWith (fun vo v => vo + clampR (-c) c (v - vo)) valuesOld values
      let v_loss_clipped := List.zipWith (fun v r => (v - r) ^ 2) v_clipped returns
      0.5 * listMean (List.zipWith max v_loss_unclipped v_loss_clipped)
  | none => 0.5 * listMean (List.zipWith (fun v r => (v - r) ^ 2) values returns)

/-- The approximate KL divergence `mean((ratio - 1) - log(ratio))` with
`ratio = exp(logp - logpOld)` (script.py lines 107-110, train_mtft.py lines
129-132). -/
noncomputable def approxKl (logp logpOld : List ℝ) : ℝ :=
  listMean (List.zipWith (fun l lo => (Real.exp (l - lo) - 1) - (l - lo)) logp logpOld)

/-- Inputs of the stateful-recurrent `compute_ppo_losses`
(`script.py` lines 27-150) after its frozen no-gradient pass: the old log
probabilities, old values, GAE advantages (the GAE itself is the external
frankenstein collaborator), returns, and terminal mask, all flattened; the
per-epoch model re-evaluations (the model parameters change between yields
through the orchestrator's optimizer step, so they are an abstract function
of the epoch index); and the external clipped policy-gradient loss. -/
structure ScriptPpoParams where
  logpOld : List ℝ
  valuesOld : List ℝ
  advantages : List ℝ
  returns : List ℝ
  terminals : List Bool
  norm_adv : Bool
  clip_vf_loss : Option ℝ
  entropy_loss_coeff : ℝ
  vf_loss_coeff : ℝ
  target_kl : Option ℝ
  num_epochs : Nat
  logp : Nat → List ℝ
  values : Nat → List ℝ
  entropy : Nat → List ℝ
  pgLossFn : List ℝ → List ℝ → List ℝ → List Bool → ℝ

/-- The advantages used by every epoch of the recurrent variant: normalized
once across the whole batch, before the epoch loop (script.py lines 82-83).
This function deliberately takes no epoch index: the code computes it a
single time and reuses it. -/
noncomputable def script_epoch_advantages (p : ScriptPpoParams) : List ℝ :=
  if p.norm_adv then normalizeAdv p.advantages else p.advantages

/-- The loss record produced by epoch `e` of the recurrent
`compute_ppo_losses` (script.py lines 85-146). -/
noncomputable def scriptEpochRecord (p : ScriptPpoParams) (e : Nat) : LossRecord :=
  let adv := script_epoch_advantages p
  let pg := p.pgLossFn (p.logp e) p.logpOld adv p.terminals
  let vl := vLoss p.clip_vf_loss (p.values e) p.valuesOld p.returns
  let ent := listMean (p.entropy e)
  { loss := pg - p.entropy_loss_coeff * ent + vl * p.vf_loss_coeff,
    loss_pi := pg,
    loss_vf := vl,
    loss_entropy := -ent,
    approx_kl := approxKl (p.logp e) p.logpOld,
    adv_used := adv }

/-- A Python generator loop that yields `f i` for up to `fuel` iterations
starting at `i`, checking the stop condition only *after* each yield
(the shared shape of both `compute_ppo_losses` loops). -/
def genRun {α : Type} (f : Nat → α) (stop : α → Prop) [DecidablePred stop] :
    Nat → Nat → List α
  | _, 0 => []
  | i, Nat.succ fuel => f i :: (if stop (f i) then [] else genRun f stop (i + 1) fuel)

/-- The early-stop condition of both variants (script.py lines 148-150,
train_mtft.py lines 173-175): stop iff a target KL is set and the record's
`approx_kl` exceeds it. -/
def stopKl (target_kl : Option ℝ) (r : LossRecord) : Prop :=
  match target_kl with
  | none => False
  | some t => t < r.approx_kl

open Classical in
/-- The list of records yielded by the recurrent `compute_ppo_losses`
(script.py lines 85-150): one per epoch, stopping early after a record whose
`approx_kl` exceeds `target_kl`. -/
noncomputable def script_compute_ppo_losses (p : ScriptPpoParams) : List LossRecord :=
  genRun (scriptEpochRecord p) (stopKl p.target_kl) 0 p.num_epochs

/-- Inputs of the flattened `compute_ppo_losses` (`train_mtft.py` lines
43-175) after its frozen no-gradient pass and flattening: the flat frozen
tensors, the minibatch geometry, the shuffle results (`perm`, as in
`enum_minibatches`), the per-minibatch model re-evaluations, and the external
clipped policy-gradient loss. -/
structure MtftPpoParams where
  flat_logpOld : List ℝ
  flat_valuesOld : List ℝ
  flat_advantages : List ℝ
  flat_returns : List ℝ
  flat_terminals : List Bool
  norm_adv : Bool
  clip_vf_loss : Option ℝ
  entropy_loss_coeff : ℝ
  vf_loss_coeff : ℝ
  target_kl : Option ℝ
  batch_size : Nat
  minibatch_size : Nat
  num_minibatches : Nat
  perm : Nat → List Nat
  mbLogp : Nat → List ℝ
  mbValues : Nat → List ℝ
  mbEntropy : Nat → List ℝ
  pgLossFn : List ℝ → List ℝ → List ℝ → List Bool → ℝ

/-- The advantages used by one minibatch of the flattened variant: the flat
advantages are gathered at the minibatch indices first, and only then, when
`norm_adv` is set, normalized with the mean and std of that minibatch
(train_mtft.py lines 116 and 134-135). -/
noncomputable def mtft_mb_advantages (norm_adv : Bool) (flat_advantages : List ℝ)
    (mb_inds : List Nat) : List ℝ :=
  let mb := gather 0 flat_advantages mb_inds
  if norm_adv then normalizeAdv mb else mb

/-- The loss record produced by minibatch iteration `i` of the flattened
`compute_ppo_losses` (train_mtft.py lines 112-171). -/
noncomputable def mtftMbRecord (p : MtftPpoParams) (i : Nat) : LossRecord :=
  let mb_inds := enum_minibatches p.perm p.batch_size p.minibatch_size i
  let adv := mtft_mb_advantages p.norm_adv p.flat_advantages mb_inds
  let logpOld := gather 0 p.flat_logpOld mb_inds
  let pg := p.pgLossFn (p.mbLogp i) logpOld adv (gather false p.flat_terminals mb_inds)
  let vl := vLoss p.clip_vf_loss (p.mbValues i)
    (gather 0 p.flat_valuesOld mb_inds) (gather 0 p.flat_returns mb_inds)
  let ent := listMean (p.mbEntropy i)
  { loss := pg - p.entropy_loss_coeff * ent + vl * p.vf_loss_coeff,
    loss_pi := pg,
    loss_vf := vl,
    loss_entropy := -ent,
    approx_kl := approxKl (p.mbLogp i) logpOld,
    adv_used := adv }

open Classical in
/-- The list of records yielded by the flattened `compute_ppo_losses`
(train_mtft.py lines 112-175): one per minibatch, stopping early after a
record whose `approx_kl` exceeds `target_kl`. -/
noncomputable def mtft_compute_ppo_losses (p : MtftPpoParams) : List LossRecord :=
  genRun (mtftMbRecord p) (stopKl p.target_kl) 0 p.num_minibatches

/- ------------------------------------------------------------------ -/
/- Concrete instantiations used by the witnesses                       -/
/- ------------------------------------------------------------------ -/

/-- A small concrete input for the recurrent variant: one env slot, one
time step, two epochs, a target KL of 1, and a model whose re-evaluations
match the frozen pass (so every ratio is 1). -/
noncomputable def scriptExampleParams : ScriptPpoParams where
  logpOld := [0]
  valuesOld := [0, 0]
  advantages := [0]
  returns := [0]
  terminals := [false]
  norm_adv := true
  clip_vf_loss := none
  entropy_loss_coeff := 0
  vf_loss_coeff := 0
  target_kl := some 1
  num_epochs := 2
  logp := fun _ => [0]
  values := fun _ => [0, 0]
  entropy := fun _ => [0]
  pgLossFn := fun _ _ _ _ => 0

/-- A small concrete input for the flattened variant: batch of 2, minibatch
size 1, two minibatches, a target KL of 1, and a model whose re-evaluations
match the frozen pass. -/
noncomputable def mtftExampleParams : MtftPpoParams where
  flat_logpOld := [0, 0]
  flat_valuesOld := [0, 0]
  flat_advantages := [0, 0]
  flat_returns := [0, 0]
  flat_terminals := [false, false]
  norm_adv := true
  clip_vf_loss := none
  entropy_loss_coeff := 0
  vf_loss_coeff := 0
  target_kl := some 1
  batch_size := 2
  minibatch_size := 1
  num_minibatches := 2
  perm := fun _ => [0, 1]
  mbLogp := fun _ => [0]
  mbValues := fun _ => [0]
  mbEntropy := fun _ => [0]
  pgLossFn := fun _ _ _ _ => 0

/-- A dynamic multitask weight over two tasks with identical max, random
and current scores. -/
noncomputable def dynExample : MultitaskDynamicWeight :=
  MultitaskDynamicWeight.make [2, 2] [0, 0] 1 (99 / 100)

/- ------------------------------------------------------------------ -/
/- Theorems                                                            -/
/- ------------------------------------------------------------------ -/

theorem apply_eq_of_ne (onLen offLen m : Nat) (h : onLen + offLen ≠ 0) (r : ℚ) :
    RewardNoiseZeroCycleSteps.apply ⟨onLen, offLen, m⟩ r
      = Except.ok ((if m % (onLen + offLen) < onLen then r else 0),
          ⟨onLen, offLen, m + 1⟩) := by
  unfold RewardNoiseZeroCycleSteps.apply
  by_cases hc : m % (onLen + offLen) < onLen <;>
    simp [h, hc, Nat.add_sub_cancel]

theorem applyList_closed_form (onLen offLen : Nat) (h : onLen + offLen ≠ 0) :
    ∀ (rs : List ℚ) (m : Nat),
      RewardNoiseZeroCycleSteps.applyList ⟨onLen, offLen, m⟩ rs
        = Except.ok (cycleOut onLen offLen m rs, ⟨onLen, offLen, m + rs.length⟩) := by
  intro rs
  induction rs with
  | nil => intro m; simp [RewardNoiseZeroCycleSteps.applyList, cycleOut]
  | cons r rs ih =>
    intro m
    simp only [RewardNoiseZeroCycleSteps.applyList, apply_eq_of_ne onLen offLen m h r,
      ih (m + 1), cycleOut, List.length_cons]
    rw [show m + (rs.length + 1) = m + 1 + rs.length by omega]

theorem cycleOut_getD (onLen offLen : Nat) :
    ∀ (rs : List ℚ) (m i : Nat), i < rs.length →
      (cycleOut onLen offLen m rs).getD i 0
        = if (m + i) % (onLen + offLen) < onLen then rs.getD i 0 else 0 := by
  intro rs
  induction rs with
  | nil => intro m i hi; simp at hi
  | cons r rs ih =>
    intro m i hi
    cases i with
    | zero => simp [cycleOut]
    | succ i =>
      have hrec := ih (m + 1) i (by simpa using hi)
      simp only [cycleOut, List.getD_cons_succ]
      rw [hrec, show m + 1 + i = m + (i + 1) by omega]

/-- C2: for `RewardNoise('zero', (onLen, offLen), 'cycle_steps')` with
`(onLen, offLen) ≠ (0, 0)`, the `k`-th `apply` call (`k` starting at 1,
trajectory position `i = k - 1`) passes the reward through exactly when
`(k - 1) % (onLen + offLen) < onLen` and returns zero otherwise; in
particular with parameter `(2, 3)` the calls `apply(1..10)` return
`[1, 2, 0, 0, 0, 6, 7, 0, 0, 0]`. -/
theorem reward_noise_zero_cycle_steps (onLen offLen : Nat) (h : onLen + offLen ≠ 0)
    (rs : List ℚ) :
    (RewardNoiseZeroCycleSteps.applyList (RewardNoiseZeroCycleSteps.make onLen offLen) rs
        = Except.ok (cycleOut onLen offLen 0 rs, ⟨onLen, offLen, rs.length⟩))
    ∧ (∀ i, i < rs.length →
        (cycleOut onLen offLen 0 rs).getD i 0
          = if i % (onLen + offLen) < onLen then rs.getD i 0 else 0)
    ∧ RewardNoiseZeroCycleSteps.applyList (RewardNoiseZeroCycleSteps.make 2 3)
        [1, 2, 3, 4, 5, 6, 7, 8, 9, 10]
        = Except.ok ([1, 2, 0, 0, 0, 6, 7, 0, 0, 0], ⟨2, 3, 10⟩) := by
  refine ⟨?_, ?_, ?_⟩
  · simpa using applyList_closed_form onLen offLen h rs 0
  · intro i hi
    simpa using cycleOut_getD onLen offLen rs 0 i hi
  · rfl

/-- Witness for C2 at the concrete test input. -/
theorem reward_noise_zero_cycle_steps_witness :
    RewardNoiseZeroCycleSteps.applyList (RewardNoiseZeroCycleSteps.make 2 3)
        [1, 2, 3, 4, 5, 6, 7, 8, 9, 10]
        = Except.ok ([1, 2, 0, 0, 0, 6, 7, 0, 0, 0], ⟨2, 3, 10⟩) :=
  (reward_noise_zero_cycle_steps 2 3 (by decide) [1, 2, 3, 4, 5, 6, 7, 8, 9, 10]).2.2

/-- C7: `RewardNoise('zero', (0, 0), 'cycle_steps')` raises a configuration
error on the first `apply` call (modelled as an `Except.error` result),
rather than returning a number obtained from a division by zero. -/
theorem reward_noise_zero_zero_errors (r : ℚ) :
    RewardNoiseZeroCycleSteps.apply (RewardNoiseZeroCycleSteps.make 0 0) r
      = Except.error "invalid cycle parameters" := rfl

theorem whereRows_getD {α : Type} (dflt : α) :
    ∀ (ds : List Bool) (va vb : List α) (i : Nat), i < ds.length →
      va.length = ds.length → vb.length = ds.length →
      (whereRows ds va vb).getD i dflt
        = if ds.getD i false then va.getD i dflt else vb.getD i dflt := by
  intro ds
  induction ds with
  | nil => intro va vb i hi _ _; simp at hi
  | cons d ds ih =>
    intro va vb i hi ha hb
    cases va with
    | nil => simp at ha
    | cons x xs =>
      cases vb with
      | nil => simp at hb
      | cons y ys =>
        cases i with
        | zero => simp [whereRows]
        | succ i =>
          simp only [whereRows, List.getD_cons_succ]
          exact ih xs ys i (by simpa using hi) (by simpa using ha) (by simpa using hb)

theorem resetHidden_getD {α : Type} (done : List Bool) :
    ∀ (h0 h : List (List α)) (l : Nat), l < h0.length → h.length = h0.length →
      (resetHidden done h0 h).getD l [] = whereRows done (h0.getD l []) (h.getD l []) := by
  intro h0
  induction h0 with
  | nil => intro h l hl _; simp at hl
  | cons a h0 ih =>
    intro h l hl hlen
    cases h with
    | nil => simp at hlen
    | cons b h =>
      cases l with
      | zero => simp [resetHidden]
      | succ l =>
        simp only [resetHidden, List.zipWith_cons_cons, List.getD_cons_succ]
        exact ih h l (by simpa using hl) (by simpa using hlen)

/-- C4: the masked hidden-state reset (the `torch.where` over the terminal
mask, as applied in the rollout loop and in the trajectory replay of the
recurrent loss computation): in every layer, each slot flagged terminal ends
up equal to the model's initial hidden state for that slot, and each slot not
flagged keeps its previous hidden state. -/
theorem masked_hidden_reset {α : Type} (dflt : α) (done : List Bool)
    (h0 h : List (List α))
    (hlen : h.length = h0.length)
    (hrow0 : ∀ a ∈ h0, a.length = done.length)
    (hrow : ∀ a ∈ h, a.length = done.length)
    (l i : Nat) (hl : l < h0.length) (hi : i < done.length) :
    (done.getD i false = true →
      ((resetHidden done h0 h).getD l []).getD i dflt = (h0.getD l []).getD i dflt)
    ∧ (done.getD i false = false →
      ((resetHidden done h0 h).getD l []).getD i dflt = (h.getD l []).getD i dflt) := by
  have hm0 : h0.getD l [] ∈ h0 := by
    rw [List.getD_eq_getElem _ _ hl]
    exact List.getElem_mem _
  have hm : h.getD l [] ∈ h := by
    rw [List.getD_eq_getElem _ _ (by omega : l < h.length)]
    exact List.getElem_mem _
  rw [resetHidden_getD done h0 h l hl hlen,
    whereRows_getD dflt done _ _ i hi (hrow0 _ hm0) (hrow _ hm)]
  constructor <;> intro hd <;> rw [hd] <;> simp

/-- Witness for C4: two slots, slot 1 terminal; after the reset, layer 0 of
slot 1 equals the initial hidden state row. -/
theorem masked_hidden_reset_witness :
    ((resetHidden [false, true] [[(10 : ℚ), 20]] [[1, 2]]).getD 0 []).getD 1 0
      = (([[(10 : ℚ), 20]]).getD 0 []).getD 1 0 :=
  (masked_hidden_reset 0 [false, true] [[(10 : ℚ), 20]] [[1, 2]] (by decide)
    (by decide) (by decide) 0 1 (by decide) (by decide)).1 (by decide)

theorem sum_map_div {K : Type} [DivisionRing K] (l : List K) (c : K) :
    (l.map (fun x => x / c)).sum = l.sum / c := by
  induction l with
  | nil => simp
  | cons x xs ih => simp [ih, add_div]

/-- C8: a `MultitaskStaticWeight` built from a non-negative vector with
positive sum has a weight vector summing to 1, and the weight is unchanged
by any sequence of `step` calls with arbitrary score arguments. -/
theorem static_weight_sums_to_one (w : List ℚ) (hnn : ∀ x ∈ w, 0 ≤ x)
    (hpos : 0 < w.sum) (scoreSeq : List (List (List ℚ))) :
    (MultitaskStaticWeight.make w).weight.sum = 1
    ∧ (MultitaskStaticWeight.stepMany (MultitaskStaticWeight.make w) scoreSeq).weight
        = (MultitaskStaticWeight.make w).weight := by
  constructor
  · show (w.map (fun x => x / w.sum)).sum = 1
    rw [sum_map_div, div_self (ne_of_gt hpos)]
  · induction scoreSeq with
    | nil => rfl
    | cons s ss ih => exact ih

/-- Witness for C8 on the vector `[1, 3]` and one `step` call. -/
theorem static_weight_sums_to_one_witness :
    (MultitaskStaticWeight.make [1, 3]).weight.sum = 1
    ∧ (MultitaskStaticWeight.stepMany (MultitaskStaticWeight.make [1, 3]) [[[2]]]).weight
        = (MultitaskStaticWeight.make [1, 3]).weight :=
  static_weight_sums_to_one [1, 3] (by norm_num) (by norm_num) [[[2]]]

theorem rolloutRun_episodic_ignores_scaling (s1 s2 : ℚ) (c1 c2 : Option ℚ) :
    ∀ (steps : List (List ℚ × List ℚ × List Bool)) (a b : RolloutAcc),
      a.episode_reward = b.episode_reward →
      a.episode_true_reward = b.episode_true_reward →
      a.episode_rewards = b.episode_rewards →
      (rolloutRun s1 c1 steps a).episode_reward = (rolloutRun s2 c2 steps b).episode_reward
      ∧ (rolloutRun s1 c1 steps a).episode_true_reward
          = (rolloutRun s2 c2 steps b).episode_true_reward
      ∧ (rolloutRun s1 c1 steps a).episode_rewards
          = (rolloutRun s2 c2 steps b).episode_rewards := by
  intro steps
  induction steps with
  | nil => intro a b h1 h2 h3; exact ⟨h1, h2, h3⟩
  | cons p steps ih =>
    intro a b h1 h2 h3
    simp only [rolloutRun, List.foldl_cons] at *
    exact ih _ _ (by simp [rolloutStep, h1]) (by simp [rolloutStep, h2])
      (by simp [rolloutStep, h1, h3])

theorem rolloutRun_history_rewards (s : ℚ) (c : Option ℚ) :
    ∀ (steps : List (List ℚ × List ℚ × List Bool)) (a : RolloutAcc),
      (rolloutRun s c steps a).history_rewards
        = a.history_rewards ++ steps.map (fun p => scaleClip s c p.1) := by
  intro steps
  induction steps with
  | nil => intro a; simp [rolloutRun]
  | cons p steps ih =>
    intro a
    simp only [rolloutRun, List.foldl_cons] at *
    rw [ih]
    simp [rolloutStep, List.append_assoc]

/-- C10: the episode-reward accumulators and the `episode_rewards` list
handed to multitask weighting are computed from the raw environment reward,
before `reward_scale` and `reward_clip` are applied, so two runs differing
only in those parameters produce identical `episode_rewards` on the same
environment trace; the trajectory history instead receives the
scaled-then-clipped reward. -/
theorem episode_rewards_ignore_reward_scaling (s1 s2 : ℚ) (c1 c2 : Option ℚ)
    (steps : List (List ℚ × List ℚ × List Bool)) (init : RolloutAcc) :
    (rolloutRun s1 c1 steps init).episode_reward
        = (rolloutRun s2 c2 steps init).episode_reward
    ∧ (rolloutRun s1 c1 steps init).episode_true_reward
        = (rolloutRun s2 c2 steps init).episode_true_reward
    ∧ (rolloutRun s1 c1 steps init).episode_rewards
        = (rolloutRun s2 c2 steps init).episode_rewards
    ∧ (rolloutRun s1 c1 steps init).history_rewards
        = init.history_rewards ++ steps.map (fun p => scaleClip s1 c1 p.1) := by
  obtain ⟨h1, h2, h3⟩ :=
    rolloutRun_episodic_ignores_scaling s1 s2 c1 c2 steps init init rfl rfl rfl
  exact ⟨h1, h2, h3, rolloutRun_history_rewards s1 c1 steps init⟩

theorem nodup_block_disjoint {α : Type} {l : List α} (hnd : l.Nodup) (a b m mb : Nat)
    (hab : a + m ≤ b) (x : α) (hx : x ∈ (l.drop a).take m) : x ∉ (l.drop b).take mb := by
  intro hx2
  have hsub : (l.drop a).Nodup := List.Nodup.sublist (List.drop_sublist a l) hnd
  have hsplit : (l.drop a).take m ++ (l.drop a).drop m = l.drop a :=
    List.take_append_drop m (l.drop a)
  have hdd : (l.drop a).drop m = l.drop (a + m) := List.drop_drop m a l
  have hnd3 : ((l.drop a).take m ++ l.drop (a + m)).Nodup := by
    rw [← hdd, hsplit]; exact hsub
  have hdisj := (List.nodup_append.mp hnd3).2.2
  apply hdisj hx
  have hxb : x ∈ l.drop b := List.take_subset mb (l.drop b) hx2
  exact List.drop_subset_drop_left l hab hxb

/-- C6: for `enum_minibatches` with `replace=False`, `batch_size ≥ 1` and
`1 ≤ minibatch_size ≤ batch_size`, two different minibatches yielded within
the same full pass (the group of `n = batch_size / minibatch_size`
consecutive minibatches sharing one shuffle) contain no common index. -/
theorem enum_minibatches_no_repeat_in_pass (perm : Nat → List Nat)
    (batch_size minibatch_size num_minibatches i j : Nat)
    (hperm : ∀ p, (perm p).Perm (List.range batch_size))
    (hmbs : 1 ≤ minibatch_size) (hbatch : minibatch_size ≤ batch_size)
    (hi : i < num_minibatches) (hj : j < num_minibatches)
    (hpass : i / (batch_size / minibatch_size) = j / (batch_size / minibatch_size))
    (hne : i ≠ j) (x : Nat)
    (hx : x ∈ enum_minibatches perm batch_size minibatch_size i) :
    x ∉ enum_minibatches perm batch_size minibatch_size j := by
  have hn : 0 < batch_size / minibatch_size :=
    Nat.div_pos hbatch (Nat.lt_of_lt_of_le Nat.zero_lt_one hmbs)
  set n := batch_size / minibatch_size with hndef
  have hnd : (perm (i / n)).Nodup :=
    ((hperm (i / n)).nodup_iff).mpr (List.nodup_range batch_size)
  have hjj : i % n ≠ j % n := by
    intro hmod
    apply hne
    rw [← Nat.div_add_mod i n, ← Nat.div_add_mod j n, hpass, hmod]
  simp only [enum_minibatches, ← hndef, ← hpass] at hx ⊢
  rcases Nat.lt_or_ge (i % n) (j % n) with hlt | hge
  · exact nodup_block_disjoint hnd (i % n * minibatch_size) (j % n * minibatch_size)
      minibatch_size minibatch_size
      (by calc i % n * minibatch_size + minibatch_size
            = (i % n + 1) * minibatch_size := by ring
          _ ≤ j % n * minibatch_size := Nat.mul_le_mul_right _ hlt)
      x hx
  · have hlt2 : j % n < i % n := Nat.lt_of_le_of_ne hge (fun e => hjj e.symm)
    intro hx2
    exact nodup_block_disjoint hnd (j % n * minibatch_size) (i % n * minibatch_size)
      minibatch_size minibatch_size
      (by calc j % n * minibatch_size + minibatch_size
            = (j % n + 1) * minibatch_size := by ring
          _ ≤ i % n * minibatch_size := Nat.mul_le_mul_right _ hlt2)
      x hx2 hx

/-- Witness for C6: batch of 4, minibatch size 2, shuffle `[1, 0, 3, 2]`;
index 1 is in minibatch 0 of the pass, hence not in minibatch 1. -/
theorem enum_minibatches_no_repeat_in_pass_witness :
    (1 : Nat) ∉ enum_minibatches (fun _ => [1, 0, 3, 2]) 4 2 1 :=
  enum_minibatches_no_repeat_in_pass (fun _ => [1, 0, 3, 2]) 4 2 2 0 1
    (fun _ => by show [1, 0, 3, 2].Perm (List.range 4); decide)
    (by decide) (by decide) (by decide) (by decide)
    (by decide) (by decide) 1 (by decide)

theorem listSum_map_sub (xs : List ℝ) (m : ℝ) :
    (xs.map (fun x => x - m)).sum = xs.sum - xs.length * m := by
  induction xs with
  | nil => simp
  | cons x xs ih =>
    simp only [List.map_cons, List.sum_cons, ih, List.length_cons]
    push_cast
    ring

theorem normalizeAdv_sum (xs : List ℝ) : (normalizeAdv xs).sum = 0 := by
  cases xs with
  | nil => simp [normalizeAdv]
  | cons y ys =>
    have hlen : (((y :: ys).length : ℕ) : ℝ) ≠ 0 := by
      rw [List.length_cons]
      push_cast
      positivity
    unfold normalizeAdv
    rw [show ((y :: ys).map
          (fun x => (x - listMean (y :: ys)) / (listStd (y :: ys) + 1 / 10 ^ 8)))
        = (((y :: ys).map (fun x => x - listMean (y :: ys))).map
          (fun x => x / (listStd (y :: ys) + 1 / 10 ^ 8))) from by
      simp [List.map_map, Function.comp]]
    rw [sum_map_div, listSum_map_sub]
    unfold listMean
    rw [mul_div_cancel₀ _ hlen, sub_self, zero_div]

/-- C1 counterexample: with `norm_adv` set, flat advantages `[0, 0, 2, 2]`
and minibatch indices `[0, 1]`, the advantages the flattened variant feeds to
the policy-gradient loss (the gathered minibatch normalized with its own
mean and std: `[0, 0]`) differ from the whole-batch-normalized advantages
gathered at those indices (whose first entry is `(0 - 1) / (std + 1e-8) < 0`),
so normalization does not happen across the whole batch before the minibatch
split. -/
theorem mtft_norm_adv_not_whole_batch :
    mtft_mb_advantages true [0, 0, 2, 2] [0, 1]
      ≠ gather 0 (normalizeAdv [0, 0, 2, 2]) [0, 1] := by
  intro heq
  have h0 := congrArg (fun l => l.getD 0 0) heq
  simp only [mtft_mb_advantages, gather, normalizeAdv, List.map_cons, List.map_nil,
    List.getD_cons_zero, List.getD_cons_succ, if_true] at h0
  have hmb : listMean [(0 : ℝ), 0] = 0 := by
    simp [listMean]
  have hmean : listMean [(0 : ℝ), 0, 2, 2] = 1 := by
    simp [listMean]
    norm_num
  rw [hmb, hmean] at h0
  have hstd : (0 : ℝ) ≤ listStd [0, 0, 2, 2] := Real.sqrt_nonneg _
  have hden : (0 : ℝ) < listStd [0, 0, 2, 2] + 1 / 10 ^ 8 := by
    have h8 : (0 : ℝ) < 1 / 10 ^ 8 := by norm_num
    linarith
  simp only [sub_zero, zero_div] at h0
  have hne : ((0 : ℝ) - 1) / (listStd [0, 0, 2, 2] + 1 / 10 ^ 8) ≠ 0 :=
    div_ne_zero (by norm_num) (ne_of_gt hden)
  exact hne h0.symm

/-- C1 amended: with `norm_adv` set, the flattened variant
(`train_mtft.compute_ppo_losses`) normalizes advantages *per minibatch,
after the split* (each minibatch is gathered first and normalized with its
own mean and std, so its used advantages sum to zero), while the
stateful-recurrent variant (`script.compute_ppo_losses`) normalizes *once
across the whole batch before the epoch loop* and reuses the same normalized
vector in every epoch. -/
theorem norm_adv_placement (p : ScriptPpoParams) (q : MtftPpoParams) (e e2 i : Nat) :
    (scriptEpochRecord p e).adv_used
        = (if p.norm_adv then normalizeAdv p.advantages else p.advantages)
    ∧ (scriptEpochRecord p e).adv_used = (scriptEpochRecord p e2).adv_used
    ∧ (p.norm_adv = true → (scriptEpochRecord p e).adv_used.sum = 0)
    ∧ (mtftMbRecord q i).adv_used
        = (if q.norm_adv then
            normalizeAdv (gather 0 q.flat_advantages
              (enum_minibatches q.perm q.batch_size q.minibatch_size i))
          else gather 0 q.flat_advantages
              (enum_minibatches q.perm q.batch_size q.minibatch_size i))
    ∧ (q.norm_adv = true → (mtftMbRecord q i).adv_used.sum = 0) := by
  refine ⟨rfl, rfl, ?_, rfl, ?_⟩
  · intro hna
    simp [scriptEpochRecord, script_epoch_advantages, hna, normalizeAdv_sum]
  · intro hna
    simp [mtftMbRecord, mtft_mb_advantages, hna, normalizeAdv_sum]

/-- Witness for the amended C1 at the concrete example parameters. -/
theorem norm_adv_placement_witness :
    (scriptEpochRecord scriptExampleParams 0).adv_used.sum = 0
    ∧ (mtftMbRecord mtftExampleParams 0).adv_used.sum = 0 :=
  ⟨(norm_adv_placement scriptExampleParams mtftExampleParams 0 1 0).2.2.1 rfl,
   (norm_adv_placement scriptExampleParams mtftExampleParams 0 1 0).2.2.2.2 rfl⟩

theorem zipWith_replicate_replicate {α β γ : Type} (f : α → β → γ) (n : Nat) (a : α) (b : β) :
    List.zipWith f (List.replicate n a) (List.replicate n b) = List.replicate n (f a b) := by
  induction n with
  | zero => rfl
  | succ n ih => simp [List.replicate_succ, ih]

theorem zip_replicate_replicate {α β : Type} (n : Nat) (a : α) (b : β) :
    List.zip (List.replicate n a) (List.replicate n b) = List.replicate n (a, b) :=
  zipWith_replicate_replicate Prod.mk n a b

/-- C5: for a `MultitaskDynamicWeight` whose per-task max and random scores
differ in every component, the `weight` property is the softmax of
`(randomScore - score) / (maxScore - randomScore) / temperature` over the
current EMA scores; its entries are positive and sum to 1; and when every
task has the same max, random, and current score, the weight vector is
uniform. -/
theorem dynamic_weight_softmax (m : MultitaskDynamicWeight)
    (hl1 : m.random_score.length = m.score.length)
    (hl2 : m.max_score.length = m.score.length)
    (hne : m.score ≠ [])
    (hmr : ∀ pr ∈ List.zip m.random_score m.max_score, pr.1 ≠ pr.2) :
    m.weight = softmax (List.zipWith
        (fun s rm => (rm.1 - s) / (rm.2 - rm.1) / m.temperature)
        m.score (List.zip m.random_score m.max_score))
    ∧ m.weight.sum = 1
    ∧ (∀ x ∈ m.weight, 0 < x)
    ∧ (∀ (k : Nat) (c r mx : ℝ), m.score = List.replicate k c →
        m.random_score = List.replicate k r → m.max_score = List.replicate k mx →
        m.weight = List.replicate k (1 / (k : ℝ))) := by
  have hx : (List.zipWith (fun s rm => -(s - rm.1) / (rm.2 - rm.1))
        m.score (List.zip m.random_score m.max_score)).map
          (fun v => Real.exp (v / m.temperature))
      = (List.zipWith (fun s rm => (rm.1 - s) / (rm.2 - rm.1) / m.temperature)
        m.score (List.zip m.random_score m.max_score)).map Real.exp := by
    rw [List.map_zipWith, List.map_zipWith]
    simp only [neg_sub]
  have hw : m.weight
      = ((List.zipWith (fun s rm => -(s - rm.1) / (rm.2 - rm.1))
          m.score (List.zip m.random_score m.max_score)).map
            (fun v => Real.exp (v / m.temperature))).map
        (fun v => v / ((List.zipWith (fun s rm => -(s - rm.1) / (rm.2 - rm.1))
          m.score (List.zip m.random_score m.max_score)).map
            (fun v => Real.exp (v / m.temperature))).sum) := rfl
  have hxpos : ∀ y ∈ (List.zipWith (fun s rm => -(s - rm.1) / (rm.2 - rm.1))
      m.score (List.zip m.random_score m.max_score)).map
        (fun v => Real.exp (v / m.temperature)), 0 < y := by
    intro y hy
    obtain ⟨v, _, hv⟩ := List.mem_map.mp hy
    exact hv ▸ Real.exp_pos _
  have hxne : (List.zipWith (fun s rm => -(s - rm.1) / (rm.2 - rm.1))
      m.score (List.zip m.random_score m.max_score)).map
        (fun v => Real.exp (v / m.temperature)) ≠ [] := by
    intro h0
    apply hne
    rw [← List.length_eq_zero]
    have := congrArg List.length h0
    simpa [List.length_zipWith, List.length_zip, hl1, hl2] using this
  have hsum : 0 < ((List.zipWith (fun s rm => -(s - rm.1) / (rm.2 - rm.1))
      m.score (List.zip m.random_score m.max_score)).map
        (fun v => Real.exp (v / m.temperature))).sum :=
    List.sum_pos _ hxpos hxne
  refine ⟨?_, ?_, ?_, ?_⟩
  · rw [hw, hx, softmax]
  · rw [hw, sum_map_div, div_self (ne_of_gt hsum)]
  · intro y hy
    rw [hw] at hy
    obtain ⟨e, he, hev⟩ := List.mem_map.mp hy
    exact hev ▸ div_pos (hxpos e he) hsum
  · intro k c r mx h1 h2 h3
    have hrep : m.weight = (List.replicate k
          (Real.exp (-(c - r) / (mx - r) / m.temperature))).map
        (fun v => v / (List.replicate k
          (Real.exp (-(c - r) / (mx - r) / m.temperature))).sum) := by
      rw [hw, h1, h2, h3, zip_replicate_replicate, zipWith_replicate_replicate,
        List.map_replicate]
    rw [hrep, List.map_replicate, List.sum_replicate]
    congr 1
    cases k with
    | zero => simp
    | succ k =>
      have he : Real.exp (-(c - r) / (mx - r) / m.temperature) ≠ 0 := Real.exp_ne_zero _
      have hk : ((k + 1 : ℕ) : ℝ) ≠ 0 := by positivity
      rw [nsmul_eq_mul]
      field_simp
      ring

/-- Witness for C5: two tasks with identical scores give the uniform
weight vector. -/
theorem dynamic_weight_softmax_witness :
    dynExample.weight = List.replicate 2 (1 / ((2 : ℕ) : ℝ)) :=
  (dynamic_weight_softmax dynExample rfl rfl (by simp [dynExample, MultitaskDynamicWeight.make])
    (by
      intro pr hpr
      simp only [dynExample, MultitaskDynamicWeight.make, List.zip_cons_cons,
        List.zip_nil_right, List.mem_cons, List.not_mem_nil, or_false] at hpr
      rcases hpr with h | h <;> rw [h] <;> norm_num)).2.2.2
    2 0 0 2 rfl rfl rfl

theorem genRun_not_stop_before_last {α : Type} [Inhabited α] (f : Nat → α)
    (stop : α → Prop) [DecidablePred stop] :
    ∀ (fuel i k : Nat), k + 1 < (genRun f stop i fuel).length →
      ¬ stop ((genRun f stop i fuel).getD k default) := by
  intro fuel
  induction fuel with
  | zero => intro i k hk; simp [genRun] at hk
  | succ fuel ih =>
    intro i k hk
    by_cases hs : stop (f i)
    · rw [genRun, if_pos hs] at hk
      simp at hk
    · cases k with
      | zero =>
        rw [genRun, if_neg hs]
        simpa using hs
      | succ k =>
        rw [genRun, if_neg hs] at hk ⊢
        simp only [List.length_cons] at hk
        simp only [List.getD_cons_succ]
        exact ih (i + 1) k (by omega)

/-- C3: in both `compute_ppo_losses` variants, when `target_kl` is set,
every yielded record except possibly the last has `approx_kl ≤ target_kl`:
the generator never yields another record after one whose `approx_kl`
exceeds the threshold (the early exit is a normal end of the yielded list,
not an error — both generators are total functions into lists). -/
theorem ppo_early_stop_on_target_kl (p : ScriptPpoParams) (q : MtftPpoParams)
    (t : ℝ) (hp : p.target_kl = some t) (hq : q.target_kl = some t) (k k2 : Nat)
    (hk : k + 1 < (script_compute_ppo_losses p).length)
    (hk2 : k2 + 1 < (mtft_compute_ppo_losses q).length) :
    ((script_compute_ppo_losses p).getD k default).approx_kl ≤ t
    ∧ ((mtft_compute_ppo_losses q).getD k2 default).approx_kl ≤ t := by
  classical
  constructor
  · unfold script_compute_ppo_losses at hk ⊢
    rw [hp] at hk ⊢
    have h := genRun_not_stop_before_last (scriptEpochRecord p) (stopKl (some t))
      p.num_epochs 0 k hk
    simp only [stopKl] at h
    exact not_lt.mp h
  · unfold mtft_compute_ppo_losses at hk2 ⊢
    rw [hq] at hk2 ⊢
    have h := genRun_not_stop_before_last (mtftMbRecord q) (stopKl (some t))
      q.num_minibatches 0 k2 hk2
    simp only [stopKl] at h
    exact not_lt.mp h

/-- C9: both `compute_ppo_losses` variants yield at least one record per
invocation whenever the iteration count is positive (and, in the flattened
variant, the minibatch geometry is valid), regardless of `target_kl`: the
early-stop check runs only after a yield. -/
theorem ppo_first_record_always_yielded (p : ScriptPpoParams) (q : MtftPpoParams)
    (hp : 1 ≤ p.num_epochs) (hq1 : 1 ≤ q.num_minibatches)
    (hq2 : 1 ≤ q.minibatch_size) (hq3 : q.minibatch_size ≤ q.batch_size) :
    script_compute_ppo_losses p ≠ [] ∧ mtft_compute_ppo_losses q ≠ [] := by
  constructor
  · unfold script_compute_ppo_losses
    obtain ⟨m, hm⟩ : ∃ m, p.num_epochs = m + 1 := ⟨p.num_epochs - 1, by omega⟩
    rw [hm, genRun]
    exact List.cons_ne_nil _ _
  · unfold mtft_compute_ppo_losses
    obtain ⟨m, hm⟩ : ∃ m, q.num_minibatches = m + 1 := ⟨q.num_minibatches - 1, by omega⟩
    rw [hm, genRun]
    exact List.cons_ne_nil _ _

/-- Witness for C9 at the concrete example parameters. -/
theorem ppo_first_record_always_yielded_witness :
    script_compute_ppo_losses scriptExampleParams ≠ []
    ∧ mtft_compute_ppo_losses mtftExampleParams ≠ [] :=
  ppo_first_record_always_yielded scriptExampleParams mtftExampleParams
    (by norm_num [scriptExampleParams]) (by norm_num [mtftExampleParams])
    (by norm_num [mtftExampleParams]) (by norm_num [mtftExampleParams])

theorem approxKl_zero_single : approxKl [(0 : ℝ)] [0] = 0 := by
  simp [approxKl, listMean, Real.exp_zero]

theorem script_example_len :
    (script_compute_ppo_losses scriptExampleParams).length = 2 := by
  classical
  have hstop : ¬ stopKl scriptExampleParams.target_kl
      (scriptEpochRecord scriptExampleParams 0) := by
    show ¬ ((1 : ℝ) < approxKl [0] [0])
    rw [approxKl_zero_single]
    norm_num
  show (genRun (scriptEpochRecord scriptExampleParams)
      (stopKl scriptExampleParams.target_kl) 0 2).length = 2
  rw [genRun, if_neg hstop, genRun]
  simp [genRun]

theorem mtft_example_len :
    (mtft_compute_ppo_losses mtftExampleParams).length = 2 := by
  classical
  have hstop : ¬ stopKl mtftExampleParams.target_kl
      (mtftMbRecord mtftExampleParams 0) := by
    show ¬ ((1 : ℝ) < approxKl [0] [0])
    rw [approxKl_zero_single]
    norm_num
  show (genRun (mtftMbRecord mtftExampleParams)
      (stopKl mtftExampleParams.target_kl) 0 2).length = 2
  rw [genRun, if_neg hstop, genRun]
  simp [genRun]

/-- Witness for C3 at the concrete example parameters: the first of the two
yielded records has `approx_kl` within the target. -/
theorem ppo_early_stop_on_target_kl_witness :
    ((script_compute_ppo_losses scriptExampleParams).getD 0 default).approx_kl ≤ 1
    ∧ ((mtft_compute_ppo_losses mtftExampleParams).getD 0 default).approx_kl ≤ 1 :=
  ppo_early_stop_on_target_kl scriptExampleParams mtftExampleParams 1 rfl rfl 0 0
    (by rw [script_example_len]; norm_num)
    (by rw [mtft_example_len]; norm_num)
